import Mathlib

/-!
# mesos-consul: the port-range decoder, the state fetcher and the reconciler

A shallow embedding of `mesos/mesos.go`.

* Go strings are sequences of characters (`String`, processed as `List Char`);
  only valid UTF-8 text is represented.
* Go `int` is the 64-bit signed integer: values are `Int`, and every
  arithmetic step that can leave the range is wrapped explicitly.
* A Go slice cannot grow without bound: `append` ends the program once the
  memory available to the slice is used up. That amount is a parameter (`cap`,
  in elements), and no slice of `int` exceeds the runtime's largest allocation.
  The small allocations of `strings.Split` and `strings.TrimSpace` are taken to
  succeed.
* A call that can panic or run out of memory yields a `Run`.
* Calls into collaborators whose code lives elsewhere (`getLeader`, `leaderIP`,
  `GetFollowerById`, `RegisterHosts`, `registerTask`, `Registry.Deregister`, the
  HTTP client and the JSON decoder) are parameters or recorded effects.
-/

namespace Mesos

/-! ## Go runtime pieces used by `yankPorts` -/

/-- Width of Go's `int` on the modelled platform. -/
def intSize : Nat := 64

/-- Largest `int`. -/
def maxInt : Int := 2 ^ (intSize - 1) - 1

/-- Smallest `int`. -/
def minInt : Int := -(2 ^ (intSize - 1))

/-- Two's-complement wrap-around of an integer into the range of `int`. -/
def wrapInt (z : Int) : Int :=
  (z + 2 ^ (intSize - 1)) % 2 ^ intSize - 2 ^ (intSize - 1)

/-- Largest allocation the Go runtime grants on the modelled platform, in bytes
(`maxAlloc`, 48 address bits). -/
def maxAlloc : Nat := 2 ^ 48

/-- Largest length a slice of `int` can reach on a machine whose memory holds
`cap` elements of it: an element takes `intSize / 8` bytes and the slice never
exceeds `maxAlloc`. -/
def sliceLimit (cap : Nat) : Nat := min cap (maxAlloc / (intSize / 8))

/-- Result of running a piece of Go code that may panic or exhaust memory. -/
inductive Run (α : Type) where
  /-- the call returned a value -/
  | returned (a : α)
  /-- run-time panic: index out of range -/
  | panicked
  /-- `append` could not grow the slice: the program ended, out of memory -/
  | outOfMemory
  deriving DecidableEq, Repr

/-- The error that comes with a `strconv` result. -/
inductive NumError where
  /-- `nil` -/
  | ok
  /-- `strconv.ErrSyntax`: the text is no decimal integer -/
  | invalid
  /-- `strconv.ErrRange`: the integer does not fit -/
  | outOfRange
  deriving DecidableEq, Repr

/-- Go `strings.Split(s, sep)` for a one-character separator: the pieces of `s`
between consecutive occurrences of `sep`; never empty. -/
def split (sep : Char) : List Char → List (List Char)
  | [] => [[]]
  | c :: cs =>
    if c = sep then [] :: split sep cs
    else
      match split sep cs with
      | [] => [[c]]
      | p :: ps => (c :: p) :: ps

/-- Go `unicode.IsSpace`. -/
def isSpace (c : Char) : Bool :=
  let n := c.toNat
  (9 ≤ n && n ≤ 13) || n = 32 || n = 0x85 || n = 0xA0 || n = 0x1680 ||
  (0x2000 ≤ n && n ≤ 0x200A) || n = 0x2028 || n = 0x2029 || n = 0x202F ||
  n = 0x205F || n = 0x3000

/-- Go `strings.TrimSpace`: drop leading and trailing white space. -/
def trimSpace (s : List Char) : List Char :=
  ((s.dropWhile isSpace).reverse.dropWhile isSpace).reverse

/-- Loop of Go `strconv.ParseUint(s, 10, 64)` over the remaining characters, `n`
being the value read so far. `none` is a syntax error (value 0); `some (v, r)`
is the value with `r = true` for a range error (value `2^64 - 1`). -/
def parseUintLoop : List Char → Nat → Option (Nat × Bool)
  | [], n => some (n, false)
  | c :: cs, n =>
    if 48 ≤ c.toNat ∧ c.toNat ≤ 57 then
      let d := c.toNat - 48
      -- cutoff = maxUint64/10 + 1
      if n ≥ (2 ^ 64 - 1) / 10 + 1 then some (2 ^ 64 - 1, true)
      else
        let n1 := n * 10 + d
        if n1 > 2 ^ 64 - 1 then some (2 ^ 64 - 1, true)
        else parseUintLoop cs n1
    else none

/-- Go `strconv.ParseUint(s, 10, 64)`. -/
def parseUint (s : List Char) : Option (Nat × Bool) :=
  match s with
  | [] => none
  | _ => parseUintLoop s 0

/-- Go `strconv.ParseInt(s, 10, 0)`: the value and the error that comes with
it. A syntax error comes with the value 0, a range error with the extreme `int`
of the sign. -/
def parseInt (s : List Char) : Int × NumError :=
  match s with
  | [] => (0, .invalid)
  | c :: cs =>
    let neg := decide (c = '-')
    let body := if c = '+' ∨ c = '-' then cs else s
    match parseUint body with
    | none => (0, .invalid)
    | some (un, _) =>
      let cutoff : Nat := 2 ^ (intSize - 1)
      if ¬ neg ∧ un ≥ cutoff then ((cutoff : Int) - 1, .outOfRange)
      else if neg ∧ un > cutoff then (-(cutoff : Int), .outOfRange)
      else (if neg then -(un : Int) else (un : Int), .ok)

/-- Go `strconv.Atoi`. -/
def atoi (s : List Char) : Int × NumError := parseInt s

/-! ## `yankPorts` -/

/-- The inner loop `for t := lo; t <= hi; t++ { yports = append(yports, t) }`.
`room` is the number of elements the slice can still take: an `append` with no
room left ends the program (`none`). -/
def appendRange (hi : Int) : Nat → Int → List Int → Option (List Int)
  | 0, t, yports => if t ≤ hi then none else some yports
  | room + 1, t, yports =>
    if t ≤ hi then appendRange hi room (wrapInt (t + 1)) (yports ++ [t])
    else some yports

/-- The loop `for _, mport := range mports { ... }`, the slice `yports` being
able to reach the length `limit`. -/
def yankLoop (limit : Nat) : List (List Char) → List Int → Run (List Int)
  | [], yports => .returned yports
  | mport :: rest, yports =>
    let pz := split '-' (trimSpace mport)
    let lo := (atoi (pz.getD 0 [])).1
    match pz.get? 1 with
    | none => .panicked
    | some p1 =>
      let hi := (atoi p1).1
      match appendRange hi (limit - yports.length) lo yports with
      | none => .outOfMemory
      | some yports1 => yankLoop limit rest yports1

/-- The function `yankPorts`, on a machine whose memory holds `cap` elements of
the result slice. -/
def yankPorts (cap : Nat) (ports : String) : Run (List Int) :=
  match (split '[' ports.data).get? 1 with
  | none => .panicked
  | some rhs =>
    let lhs := (split ']' rhs).getD 0 []
    yankLoop (sliceLimit cap) (split ',' lhs) []

/-! ## State document -/

/-- Modelled from the spec: the `Task` type is declared outside `mesos.go`. Spec:
a Task has an `id`, a `followerId` naming the executing host, a `state` and
resources holding a raw port-range string. -/
structure Task where
  Id : String
  FollowerId : String
  State : String
  Ports : String
  deriving DecidableEq, Repr

/-- Modelled from the spec: the `Framework` type is declared outside `mesos.go`.
Spec: a Framework has an `id` and an ordered sequence of tasks. -/
structure Framework where
  Id : String
  Tasks : List Task
  deriving DecidableEq, Repr

/-- Modelled from the spec: the `StateJSON` type is declared outside `mesos.go`.
Spec: the state document has a `leader` address string and an ordered sequence
of frameworks; hosts are resolved by follower id within the document, kept
here as `(id, host)` pairs. -/
structure StateJSON where
  Leader : String
  Frameworks : List Framework
  Followers : List (String × String)
  deriving DecidableEq, Repr

/-- The zero value `StateJSON{}`. -/
def StateJSON.zero : StateJSON := ⟨"", [], []⟩

/-- Go `error`: `none` is `nil`, `some msg` an error with that message. -/
abbrev GoError := Option String

/-! ## Collaborators -/

/-- What the HTTP round trip of one fetch can do. -/
inductive HttpReply where
  /-- `client.Do` returned an error -/
  | transportError
  /-- `ioutil.ReadAll` returned an error -/
  | readError
  /-- the response body was read -/
  | body (b : String)
  deriving DecidableEq, Repr

/-- Everything `mesos.go` calls but does not define. -/
structure Env where
  /-- `m.getLeader()`: ip and port of the leader known from zookeeper -/
  getLeader : String × String
  /-- `leaderIP(leader)` -/
  leaderIP : String → String
  /-- whether `http.NewRequest("GET", url, nil)` succeeds on the url -/
  newRequestOk : String → Bool
  /-- `client.Do(req)` followed by `ioutil.ReadAll(resp.Body)` -/
  roundTrip : String → HttpReply
  /-- `json.Unmarshal(body, &sj)`; `none` is a decode error -/
  unmarshal : String → Option StateJSON
  /-- `sj.GetFollowerById(id)`: the host and the error -/
  getFollowerById : StateJSON → String → String × GoError

/-- Result of code that may end the process through `log.Fatal`. -/
inductive Proc (α : Type) where
  /-- the call returned to its caller -/
  | returned (a : α)
  /-- `log.Fatal` ended the process (`os.Exit(1)`) -/
  | exited
  deriving DecidableEq, Repr

/-- Result of one `loadFromMaster` call. -/
inductive Fetched where
  /-- the decoded document was returned -/
  | doc (sj : StateJSON)
  /-- `log.Fatal` ended the process -/
  | fatal
  /-- the call panicked (nil `req` dereferenced) -/
  | panicked
  deriving DecidableEq, Repr

/-! ## State fetcher -/

/-- The url `loadFromMaster` builds. -/
def stateURL (ip port : String) : String :=
  "http://" ++ ip ++ ":" ++ port ++ "/master/state.json"

/-- The method `Mesos.loadFromMaster`. -/
def loadFromMaster (env : Env) (ip port : String) : Fetched :=
  let url := stateURL ip port
  -- on error `req` is nil and `req.Header.Set` dereferences it
  if env.newRequestOk url = false then .panicked
  else
    match env.roundTrip url with
    | .transportError => .fatal
    | .readError => .fatal
    | .body b =>
      match env.unmarshal b with
      | none => .fatal
      | some sj => .doc sj

/-- The method `Mesos.loadState`: what it hands to its caller, and the list of
`loadFromMaster` calls it made, as `(ip, port)` in call order. The results of
`loadState` are unnamed, so the deferred handler that recovers a panic assigns
only the local `err`: the caller receives the zero values. -/
def loadState (env : Env) : Proc (StateJSON × GoError) × List (String × String) :=
  let ip := env.getLeader.1
  let port := env.getLeader.2
  if ip = "" then (.returned (StateJSON.zero, some "No master in zookeeper"), [])
  else
    match loadFromMaster env ip port with
    | .fatal => (.exited, [(ip, port)])
    | .panicked => (.returned (StateJSON.zero, none), [(ip, port)])
    | .doc sj =>
      let rip := env.leaderIP sj.Leader
      if rip ≠ ip then
        match loadFromMaster env rip port with
        | .fatal => (.exited, [(ip, port), (rip, port)])
        | .panicked => (.returned (StateJSON.zero, none), [(ip, port), (rip, port)])
        | .doc sj2 => (.returned (sj2, none), [(ip, port), (rip, port)])
      else (.returned (sj, none), [(ip, port)])

/-! ## State reconciler -/

/-- Calls `parseState` makes on the registry side, each one atomic. -/
inductive RegistryCall where
  /-- `m.RegisterHosts(sj)` -/
  | registerHosts (sj : StateJSON)
  /-- `m.registerTask(&task, host)` -/
  | registerTask (task : Task) (host : String)
  /-- `m.Registry.Deregister()` -/
  | deregister
  deriving DecidableEq, Repr

/-- Body of the loop over `fw.Tasks`. -/
def taskStep (env : Env) (sj : StateJSON) (log : List RegistryCall) (task : Task) :
    List RegistryCall :=
  let r := env.getFollowerById sj task.FollowerId
  if r.2 = none ∧ task.State = "TASK_RUNNING" then log ++ [.registerTask task r.1]
  else log

/-- Body of the loop over `sj.Frameworks`. -/
def frameworkStep (env : Env) (sj : StateJSON) (log : List RegistryCall) (fw : Framework) :
    List RegistryCall :=
  fw.Tasks.foldl (taskStep env sj) log

/-- The method `Mesos.parseState`: the registry calls it makes, in order. -/
def parseState (env : Env) (sj : StateJSON) : List RegistryCall :=
  let log := [RegistryCall.registerHosts sj]
  let log := sj.Frameworks.foldl (frameworkStep env sj) log
  log ++ [.deregister]

/-- The part of `Refresh` after `m.loadState()` has returned `(sj, err)`: the
error `Refresh` returns and the registry calls made. -/
def refreshAfter (env : Env) (sj : StateJSON) (err : GoError) : GoError × List RegistryCall :=
  if err ≠ none then (err, [])
  else if sj.Leader = "" then (some "Empty master", [])
  else (none, parseState env sj)

/-- What one `Refresh` call did. -/
structure RefreshResult where
  /-- the error returned, unless the process exited -/
  result : Proc GoError
  /-- `loadFromMaster` calls, as `(ip, port)` -/
  fetches : List (String × String)
  /-- registry calls -/
  registry : List RegistryCall
  deriving DecidableEq, Repr

/-- The method `Mesos.Refresh`. -/
def Refresh (env : Env) : RefreshResult :=
  match loadState env with
  | (.exited, fs) => ⟨.exited, fs, []⟩
  | (.returned (sj, err), fs) =>
    ⟨.returned (refreshAfter env sj err).1, fs, (refreshAfter env sj err).2⟩

/-- Modelled from the spec: `leaderIP` is defined outside `mesos.go`. Spec: the
leader string is formatted as `scheme://id@host:port`, from which host and port
are extracted; the host is the text between `@` and the next `:`, the port the
text after that `:`. -/
def resolveLeader (leader : String) : String × String :=
  let pid := (split '@' leader.data).getD 1 []
  let parts := split ':' pid
  (String.mk (parts.getD 0 []), String.mk (parts.getD 1 []))

/-- Modelled from the spec: `GetFollowerById` is defined outside `mesos.go`.
Spec: the host of a task is found by its follower id in the document; an id
that is not there cannot be resolved. -/
def lookupFollower (sj : StateJSON) (id : String) : String × GoError :=
  match sj.Followers.find? (fun f => f.1 = id) with
  | some f => (f.2, none)
  | none => ("", some "not found")

/-- A collaborator set for concrete runs: every url answers with the body it is
given, decoded to the document `answer url`. -/
def envOf (leader : String × String) (answer : String → StateJSON) : Env where
  getLeader := leader
  leaderIP := fun l => (resolveLeader l).1
  newRequestOk := fun _ => true
  roundTrip := fun url => .body url
  unmarshal := fun b => some (answer b)
  getFollowerById := lookupFollower

/-! ## Vocabulary of the port statements -/

/-- The integers `t, t+1, ...`, `n` of them. -/
def upFrom (t : Int) : Nat → List Int
  | 0 => []
  | n + 1 => t :: upFrom (t + 1) n

/-- The ascending list `[lo, lo+1, ..., hi]`, empty when `hi < lo`. -/
def intRange (lo hi : Int) : List Int := upFrom lo (hi + 1 - lo).toNat

/-- Value of a string of decimal digits. -/
def decVal (ds : List Char) : Nat := ds.foldl (fun a c => a * 10 + (c.toNat - 48)) 0

/-- A decimal digit. -/
@[reducible]
def isDigit (c : Char) : Prop := 48 ≤ c.toNat ∧ c.toNat ≤ 57

/-- The text of a list of segments: the segments with a comma between each two. -/
def joinSegs : List (List Char) → List Char
  | [] => []
  | [a] => a
  | a :: b :: rest => a ++ ',' :: joinSegs (b :: rest)

/-- The segments `yankPorts` iterates over: the text after the first `[`, up to
the next `[`, cut at its first `]`, split at the commas. -/
def segmentsOf (ports : String) : List (List Char) :=
  split ',' ((split ']' ((split '[' ports.data).getD 1 [])).getD 0 [])

/-- The lower bound `yankPorts` reads from a segment. -/
def segLo (g : List Char) : Int := (atoi ((split '-' (trimSpace g)).getD 0 [])).1

/-- The upper bound `yankPorts` reads from a segment. -/
def segHi (g : List Char) : Int := (atoi ((split '-' (trimSpace g)).getD 1 [])).1

/-- One segment ` lo-hi ` of a well-formed port string, with the white space
around it. -/
structure Segment where
  pre : List Char
  lo : List Char
  hi : List Char
  post : List Char

/-- The text of a segment. -/
def Segment.text (g : Segment) : List Char := g.pre ++ (g.lo ++ '-' :: g.hi) ++ g.post

/-- A segment is well formed when it is surrounded by white space only and both
bounds are non-empty digit strings with `lo ≤ hi`. -/
@[reducible]
def Segment.WF (g : Segment) : Prop :=
  (∀ c ∈ g.pre, isSpace c = true) ∧ (∀ c ∈ g.post, isSpace c = true) ∧
    g.lo ≠ [] ∧ g.hi ≠ [] ∧ (∀ c ∈ g.lo, isDigit c) ∧ (∀ c ∈ g.hi, isDigit c) ∧
    decVal g.lo ≤ decVal g.hi

/-- The ports a well-formed segment stands for. -/
def Segment.ports (g : Segment) : List Int := intRange (decVal g.lo) (decVal g.hi)

/-- A well-formed port string: a prefix, `[`, the segments, `]`. -/
def portString (pfx : List Char) (segs : List Segment) : String :=
  String.mk (pfx ++ '[' :: (joinSegs (segs.map Segment.text) ++ [']']))

/-- The values a segment stands for in `yankPorts`: the list `[lo, ..., hi]` of
the bounds read from it, for a segment with a `-`. -/
def segValues (g : List Char) : List Int :=
  if '-' ∈ trimSpace g then intRange (segLo g) (segHi g) else []

/-- The segments of `[1-1, 5-6]`. -/
def segsDemo : List Segment :=
  [⟨[], ['1'], ['1'], []⟩, ⟨[' '], ['5'], ['6'], []⟩]

/-- The segment `0-9223372036854775807`, whose upper bound is the largest `int`. -/
def segMax : Segment := ⟨[], ['0'], "9223372036854775807".data, []⟩

/-- The segment `9223372036854775806-9223372036854775807`: two values, the upper
bound being the largest `int`. -/
def segTop : Segment := ⟨[], "9223372036854775806".data, "9223372036854775807".data, []⟩

/-- The segment `0-9223372036854775806`, whose upper bound is below the largest
`int`. -/
def segWide : Segment := ⟨[], ['0'], "9223372036854775806".data, []⟩

/-! ## Vocabulary of the statements -/

/-- Tasks of a document, in framework order, then task order. -/
def allTasks (sj : StateJSON) : List Task :=
  (sj.Frameworks.map Framework.Tasks).flatten

/-- A task is eligible when it is running and its host resolves without error. -/
def eligible (env : Env) (sj : StateJSON) (t : Task) : Bool :=
  decide (t.State = "TASK_RUNNING") && decide ((env.getFollowerById sj t.FollowerId).2 = none)

/-- The `registerTask` calls of a log, in order, as `(task, host)`. -/
def registrations (log : List RegistryCall) : List (Task × String) :=
  log.filterMap fun c =>
    match c with
    | .registerTask t h => some (t, h)
    | _ => none

/-- A fetch that fails in the transport, in reading the body or in decoding. -/
def fetchFails (env : Env) (ip port : String) : Prop :=
  env.newRequestOk (stateURL ip port) = true ∧
    (env.roundTrip (stateURL ip port) = .transportError ∨
     env.roundTrip (stateURL ip port) = .readError ∨
     ∃ b, env.roundTrip (stateURL ip port) = .body b ∧ env.unmarshal b = none)

/-! ## Concrete documents and collaborators -/

/-- A running task on follower `s1`. -/
def taskRun : Task := ⟨"t1", "s1", "TASK_RUNNING", "[8000-8001]"⟩

/-- A finished task on follower `s1`. -/
def taskDone : Task := ⟨"t2", "s1", "TASK_FINISHED", "[8002-8002]"⟩

/-- A running task on a follower the document does not list. -/
def taskLost : Task := ⟨"t3", "s9", "TASK_RUNNING", "[8003-8003]"⟩

/-- A running task on follower `s2`. -/
def taskNext : Task := ⟨"t4", "s2", "TASK_RUNNING", "[8004-8004]"⟩

/-- A document led by `10.0.0.1:5050`. -/
def docA : StateJSON :=
  ⟨"master@10.0.0.1:5050", [⟨"fw1", [taskRun, taskDone]⟩, ⟨"fw2", [taskLost, taskNext]⟩],
    [("s1", "10.0.1.1"), ("s2", "10.0.1.2")]⟩

/-- A document naming `10.0.0.2:6060` as leader. -/
def docMoved : StateJSON := ⟨"master@10.0.0.2:6060", [], []⟩

/-- A document naming the contacted ip with another port as leader. -/
def docPort : StateJSON := ⟨"master@10.0.0.1:6060", [], []⟩

/-- A document with no leader. -/
def docEmpty : StateJSON := ⟨"", [⟨"fw1", [taskRun]⟩], [("s1", "10.0.1.1")]⟩

/-- Zookeeper names `10.0.0.1:5050`, which answers with `docA`. -/
def envSteady : Env := envOf ("10.0.0.1", "5050") (fun _ => docA)

/-- Zookeeper names `10.0.0.1:5050`, which says the leader moved; the other
host answers with `docA`. -/
def envMoved : Env :=
  envOf ("10.0.0.1", "5050")
    (fun url => if url = "http://10.0.0.1:5050/master/state.json" then docMoved else docA)

/-- Zookeeper names `10.0.0.1:5050`, which names port 6060 of itself as leader. -/
def envPort : Env := envOf ("10.0.0.1", "5050") (fun _ => docPort)

/-- Zookeeper knows no leader. -/
def envNoLeader : Env := envOf ("", "") (fun _ => docA)

/-- The transport fails on every url. -/
def envTransport : Env := { envSteady with roundTrip := fun _ => .transportError }

/-- Reading the body fails on every url. -/
def envRead : Env := { envSteady with roundTrip := fun _ => .readError }

/-- No body decodes. -/
def envDecode : Env := { envSteady with unmarshal := fun _ => none }

/-- No request can be built, so every fetch panics. -/
def envPanic : Env := { envSteady with newRequestOk := fun _ => false }

/-! ## Strings: lemmas -/

theorem split_ne_nil (sep : Char) (s : List Char) : split sep s ≠ [] := by
  cases s with
  | nil => simp [split]
  | cons c cs =>
    unfold split
    split_ifs
    · simp
    · cases split sep cs <;> simp

theorem split_of_not_mem (sep : Char) (s : List Char) (h : sep ∉ s) : split sep s = [s] := by
  induction s with
  | nil => rfl
  | cons c cs ih =>
    simp only [List.mem_cons, not_or] at h
    have hc : ¬ c = sep := fun e => h.1 e.symm
    simp [split, hc, ih h.2]

theorem split_append_sep (sep : Char) (a b : List Char) (h : sep ∉ a) :
    split sep (a ++ sep :: b) = a :: split sep b := by
  induction a with
  | nil => simp [split]
  | cons c cs ih =>
    simp only [List.mem_cons, not_or] at h
    have hc : ¬ c = sep := fun e => h.1 e.symm
    simp [split, hc, ih h.2]

theorem split_length (sep : Char) (s : List Char) :
    (split sep s).length = s.count sep + 1 := by
  induction s with
  | nil => rfl
  | cons c cs ih =>
    by_cases hc : c = sep
    · subst hc
      simp [split, ih]
    · have hne : (c == sep) = false := by simpa using hc
      have hsplit : (split sep (c :: cs)).length = (split sep cs).length := by
        simp only [split, hc, if_false]
        cases hs : split sep cs with
        | nil => exact absurd hs (split_ne_nil sep cs)
        | cons p ps => rfl
      rw [hsplit, ih, List.count_cons, hne]
      simp

theorem split_get?_one_none (sep : Char) (s : List Char) :
    (split sep s).get? 1 = none ↔ sep ∉ s := by
  rw [List.get?_eq_none, split_length, ← List.count_eq_zero]
  omega

theorem split_get?_one_some (sep : Char) (s : List Char) (h : sep ∈ s) :
    (split sep s).get? 1 = some ((split sep s).getD 1 []) := by
  have hlen : 1 < (split sep s).length := by
    rw [split_length]
    have := List.count_pos_iff.mpr h
    omega
  rw [List.getD_eq_getElem _ _ hlen, List.get?_eq_getElem?, List.getElem?_eq_getElem hlen]

theorem dropWhile_space_append (pre rest : List Char) (c : Char)
    (hpre : ∀ x ∈ pre, isSpace x = true) (hc : isSpace c = false) :
    (pre ++ c :: rest).dropWhile isSpace = c :: rest := by
  induction pre with
  | nil => simp [List.dropWhile, hc]
  | cons x xs ih =>
    have hx : isSpace x = true := hpre x (List.mem_cons_self _ _)
    simp only [List.cons_append, List.dropWhile, hx]
    exact ih (fun y hy => hpre y (List.mem_cons_of_mem _ hy))

theorem trimSpace_core (pre post mid : List Char) (a b : Char)
    (hpre : ∀ x ∈ pre, isSpace x = true) (hpost : ∀ x ∈ post, isSpace x = true)
    (ha : isSpace a = false) (hb : isSpace b = false) :
    trimSpace (pre ++ (a :: (mid ++ [b])) ++ post) = a :: (mid ++ [b]) := by
  unfold trimSpace
  rw [List.append_assoc, List.cons_append, dropWhile_space_append pre _ a hpre ha]
  have hrev : (a :: (mid ++ [b] ++ post)).reverse = post.reverse ++ b :: (a :: mid).reverse := by
    simp
  rw [hrev, dropWhile_space_append post.reverse _ b
    (fun x hx => hpost x (List.mem_reverse.mp hx)) hb]
  simp

theorem digit_not_space (c : Char) (h : isDigit c) : isSpace c = false := by
  unfold isDigit at h
  unfold isSpace
  simp only [Bool.or_eq_false_iff, Bool.and_eq_false_iff, decide_eq_false_iff_not]
  omega

/-! ## Integers: lemmas -/

theorem maxInt_eq : maxInt = 9223372036854775807 := by
  norm_num [maxInt, intSize]

theorem minInt_eq : minInt = -9223372036854775808 := by
  norm_num [minInt, intSize]

theorem wrapInt_of_range (z : Int) (h1 : minInt ≤ z) (h2 : z ≤ maxInt) : wrapInt z = z := by
  rw [maxInt_eq] at h2
  rw [minInt_eq] at h1
  unfold wrapInt
  norm_num [intSize]
  omega

theorem wrapInt_le (z : Int) : wrapInt z ≤ maxInt := by
  rw [maxInt_eq]
  unfold wrapInt
  norm_num [intSize]
  omega

theorem upFrom_length (t : Int) (n : Nat) : (upFrom t n).length = n := by
  induction n generalizing t with
  | zero => rfl
  | succ n ih => simp [upFrom, ih]

theorem intRange_step (t hi : Int) (h : t ≤ hi) : intRange t hi = t :: intRange (t + 1) hi := by
  unfold intRange
  have : (hi + 1 - t).toNat = (hi + 1 - (t + 1)).toNat + 1 := by omega
  rw [this, upFrom]

theorem intRange_empty (t hi : Int) (h : hi < t) : intRange t hi = [] := by
  unfold intRange
  have : (hi + 1 - t).toNat = 0 := by omega
  rw [this, upFrom]

theorem intRange_length (lo hi : Int) (h : lo ≤ hi) :
    ((intRange lo hi).length : Int) = hi - lo + 1 := by
  unfold intRange
  rw [upFrom_length]
  omega

/-- With room for them the inner loop appends `[t, ..., hi]`. -/
theorem appendRange_enough (hi : Int) (hhi : hi < maxInt) (room : Nat) (t : Int)
    (yports : List Int) (ht : minInt ≤ t) (hf : (hi + 1 - t).toNat ≤ room) :
    appendRange hi room t yports = some (yports ++ intRange t hi) := by
  induction room generalizing t yports with
  | zero =>
    have hle : ¬ t ≤ hi := by omega
    rw [appendRange, if_neg hle, intRange_empty t hi (by omega)]
    simp
  | succ room ih =>
    rw [appendRange]
    by_cases hle : t ≤ hi
    · have hw : wrapInt (t + 1) = t + 1 := by
        apply wrapInt_of_range <;> omega
      rw [if_pos hle, hw, ih (t + 1) _ (by omega) (by omega), intRange_step t hi hle]
      simp
    · rw [if_neg hle, intRange_empty t hi (by omega)]
      simp

/-- Without room for all of `[t, ..., hi]` the inner loop ends the program. -/
theorem appendRange_short (hi : Int) (hhi : hi < maxInt) (room : Nat) (t : Int)
    (yports : List Int) (ht : minInt ≤ t) (hf : room < (hi + 1 - t).toNat) :
    appendRange hi room t yports = none := by
  induction room generalizing t yports with
  | zero =>
    have hle : t ≤ hi := by omega
    rw [appendRange, if_pos hle]
  | succ room ih =>
    have hle : t ≤ hi := by omega
    have hw : wrapInt (t + 1) = t + 1 := by
      apply wrapInt_of_range <;> omega
    rw [appendRange, if_pos hle, hw]
    exact ih (t + 1) _ (by omega) (by omega)

/-- With the largest `int` as upper bound the test of the inner loop never
fails: it appends until the room is used up and the program ends. -/
theorem appendRange_never (room : Nat) (t : Int) (yports : List Int) (ht : t ≤ maxInt) :
    appendRange maxInt room t yports = none := by
  induction room generalizing t yports with
  | zero => rw [appendRange, if_pos ht]
  | succ room ih =>
    rw [appendRange, if_pos ht]
    exact ih _ _ (wrapInt_le _)

/-! ## `Atoi`: lemmas -/

theorem digits_foldl_ge (ds : List Char) (n : Nat) :
    n ≤ ds.foldl (fun a c => a * 10 + (c.toNat - 48)) n := by
  induction ds generalizing n with
  | nil => exact le_refl _
  | cons c cs ih =>
    rw [List.foldl_cons]
    exact le_trans (by omega) (ih _)

theorem parseUintLoop_digits (ds : List Char) (n : Nat) (hd : ∀ c ∈ ds, isDigit c)
    (hv : ds.foldl (fun a c => a * 10 + (c.toNat - 48)) n < 2 ^ 64) :
    parseUintLoop ds n = some (ds.foldl (fun a c => a * 10 + (c.toNat - 48)) n, false) := by
  induction ds generalizing n with
  | nil => rfl
  | cons c cs ih =>
    have hc : 48 ≤ c.toNat ∧ c.toNat ≤ 57 := hd c (List.mem_cons_self _ _)
    rw [List.foldl_cons] at hv ⊢
    have hge := digits_foldl_ge cs (n * 10 + (c.toNat - 48))
    have h64 : (2 : Nat) ^ 64 = 18446744073709551616 := by norm_num
    rw [h64] at hv
    unfold parseUintLoop
    rw [if_pos hc]
    have h1 : ¬ n ≥ (2 ^ 64 - 1) / 10 + 1 := by
      rw [h64]; omega
    have h2 : ¬ n * 10 + (c.toNat - 48) > 2 ^ 64 - 1 := by
      rw [h64]; omega
    simp only [h1, h2, if_false]
    exact ih _ (fun x hx => hd x (List.mem_cons_of_mem _ hx)) (by rw [h64]; exact hv)

theorem parseUintLoop_overflow (ds : List Char) (n : Nat) (hd : ∀ c ∈ ds, isDigit c)
    (hn : n < 2 ^ 64)
    (hv : 2 ^ 64 ≤ ds.foldl (fun a c => a * 10 + (c.toNat - 48)) n) :
    parseUintLoop ds n = some (2 ^ 64 - 1, true) := by
  induction ds generalizing n with
  | nil =>
    simp only [List.foldl_nil] at hv
    omega
  | cons c cs ih =>
    have hc : 48 ≤ c.toNat ∧ c.toNat ≤ 57 := hd c (List.mem_cons_self _ _)
    rw [List.foldl_cons] at hv
    unfold parseUintLoop
    rw [if_pos hc]
    by_cases h1 : n ≥ (2 ^ 64 - 1) / 10 + 1
    · rw [if_pos h1]
    · rw [if_neg h1]
      by_cases h2 : n * 10 + (c.toNat - 48) > 2 ^ 64 - 1
      · simp only [h2, if_true]
      · simp only [h2, if_false]
        exact ih _ (fun x hx => hd x (List.mem_cons_of_mem _ hx))
          (by have h64 : (2 : Nat) ^ 64 = 18446744073709551616 := by norm_num
              rw [h64] at h2 ⊢
              omega) hv

theorem digits_not_sign (c : Char) (hc : isDigit c) : ¬ c = '+' ∧ ¬ c = '-' := by
  constructor <;>
  · rintro rfl
    revert hc
    decide

theorem atoi_digits (ds : List Char) (hne : ds ≠ []) (hd : ∀ c ∈ ds, isDigit c)
    (hv : decVal ds < 2 ^ 63) : atoi ds = ((decVal ds : Int), .ok) := by
  cases ds with
  | nil => exact absurd rfl hne
  | cons c cs =>
    obtain ⟨hplus, hminus⟩ := digits_not_sign c (hd c (List.mem_cons_self _ _))
    have hloop := parseUintLoop_digits (c :: cs) 0 hd
      (lt_trans hv (by norm_num))
    have hu : parseUint (c :: cs) = some (decVal (c :: cs), false) := hloop
    have hcut : ¬ decVal (c :: cs) ≥ 2 ^ 63 := by omega
    simp only [atoi, parseInt, hplus, hminus, or_self, if_false, hu, intSize, decide_False,
      Bool.false_eq_true, not_false_eq_true, true_and, false_and]
    norm_num
    omega

theorem atoi_digits_large (ds : List Char) (hne : ds ≠ []) (hd : ∀ c ∈ ds, isDigit c)
    (hv : 2 ^ 63 ≤ decVal ds) : atoi ds = (maxInt, .outOfRange) := by
  rw [maxInt_eq]
  cases ds with
  | nil => exact absurd rfl hne
  | cons c cs =>
    obtain ⟨hplus, hminus⟩ := digits_not_sign c (hd c (List.mem_cons_self _ _))
    have hex : ∃ un e, parseUint (c :: cs) = some (un, e) ∧ 2 ^ 63 ≤ un := by
      by_cases hbig : decVal (c :: cs) < 2 ^ 64
      · exact ⟨_, _, parseUintLoop_digits (c :: cs) 0 hd hbig, hv⟩
      · exact ⟨_, _, parseUintLoop_overflow (c :: cs) 0 hd (by norm_num) (by
          unfold decVal at hbig; omega), by norm_num⟩
    obtain ⟨un, e, hu, hun⟩ := hex
    simp only [atoi, parseInt, hplus, hminus, or_self, if_false, hu, intSize, decide_False,
      Bool.false_eq_true, not_false_eq_true, true_and, false_and]
    norm_num
    intro hlt
    omega

theorem atoi_range (s : List Char) : minInt ≤ (atoi s).1 ∧ (atoi s).1 ≤ maxInt := by
  rw [minInt_eq, maxInt_eq]
  unfold atoi parseInt
  cases s with
  | nil => simp
  | cons c cs =>
    simp only
    cases parseUint (if c = '+' ∨ c = '-' then cs else c :: cs) with
    | none => simp
    | some r =>
      obtain ⟨un, e⟩ := r
      simp only [intSize]
      norm_num
      by_cases hc : c = '-'
      · simp only [hc, not_true_eq_false, false_and, if_false, true_and, if_true]
        split_ifs <;> simp
        omega
      · simp only [hc, not_false_eq_true, true_and, false_and, if_false]
        split_ifs <;> simp
        omega

/-- A syntax error comes with the value 0. -/
theorem atoi_invalid_value (s : List Char) (h : (atoi s).2 = .invalid) : (atoi s).1 = 0 := by
  unfold atoi parseInt at h ⊢
  cases s with
  | nil => simp
  | cons c cs =>
    simp only at h ⊢
    cases hp : parseUint (if c = '+' ∨ c = '-' then cs else c :: cs) with
    | none => simp
    | some r =>
      obtain ⟨un, e⟩ := r
      rw [hp] at h
      simp only at h ⊢
      split_ifs at h

/-! ## `yankPorts`: lemmas -/

theorem segLo_range (g : List Char) : minInt ≤ segLo g ∧ segLo g ≤ maxInt := atoi_range _

theorem segHi_range (g : List Char) : minInt ≤ segHi g ∧ segHi g ≤ maxInt := atoi_range _

theorem intRange_length_toNat (lo hi : Int) : (intRange lo hi).length = (hi + 1 - lo).toNat :=
  upFrom_length _ _

theorem sliceLimit_le (cap : Nat) : sliceLimit cap ≤ maxAlloc / (intSize / 8) :=
  min_le_right _ _

theorem yankLoop_cons_nodash (limit : Nat) (g : List Char) (rest : List (List Char))
    (yports : List Int) (h : '-' ∉ trimSpace g) :
    yankLoop limit (g :: rest) yports = .panicked := by
  have hn := (split_get?_one_none '-' (trimSpace g)).mpr h
  simp only [yankLoop, hn]

theorem yankLoop_cons_dash (limit : Nat) (g : List Char) (rest : List (List Char))
    (yports : List Int) (h : '-' ∈ trimSpace g) :
    yankLoop limit (g :: rest) yports =
      match appendRange (segHi g) (limit - yports.length) (segLo g) yports with
      | none => .outOfMemory
      | some r => yankLoop limit rest r := by
  have hs := split_get?_one_some '-' (trimSpace g) h
  simp only [yankLoop, hs, segHi, segLo]

/-- A segment whose upper bound is read as the largest `int` ends the program. -/
theorem yankLoop_cons_never (limit : Nat) (g : List Char) (rest : List (List Char))
    (yports : List Int) (h : '-' ∈ trimSpace g) (hm : segHi g = maxInt) :
    yankLoop limit (g :: rest) yports = .outOfMemory := by
  rw [yankLoop_cons_dash limit g rest yports h, hm,
    appendRange_never _ _ _ (segLo_range g).2]

/-- A segment with more values than the slice has room for ends the program. -/
theorem yankLoop_cons_short (limit : Nat) (g : List Char) (rest : List (List Char))
    (yports : List Int) (h : '-' ∈ trimSpace g) (hm : segHi g ≠ maxInt)
    (hroom : limit - yports.length < (segHi g + 1 - segLo g).toNat) :
    yankLoop limit (g :: rest) yports = .outOfMemory := by
  have hlt : segHi g < maxInt := lt_of_le_of_ne (segHi_range g).2 hm
  rw [yankLoop_cons_dash limit g rest yports h,
    appendRange_short _ hlt _ _ _ (segLo_range g).1 hroom]

/-- A segment whose values the slice has room for appends them. -/
theorem yankLoop_cons_fit (limit : Nat) (g : List Char) (rest : List (List Char))
    (yports : List Int) (h : '-' ∈ trimSpace g) (hm : segHi g ≠ maxInt)
    (hroom : (segHi g + 1 - segLo g).toNat ≤ limit - yports.length) :
    yankLoop limit (g :: rest) yports =
      yankLoop limit rest (yports ++ intRange (segLo g) (segHi g)) := by
  have hlt : segHi g < maxInt := lt_of_le_of_ne (segHi_range g).2 hm
  rw [yankLoop_cons_dash limit g rest yports h,
    appendRange_enough _ hlt _ _ _ (segLo_range g).1 hroom]

/-- When no upper bound is read as the largest `int` and all values fit the
slice, the loop over the segments panics at a segment without `-` and returns
the values of the segments otherwise. -/
theorem yankLoop_fit (limit : Nat) (segs : List (List Char)) (yports : List Int)
    (hhi : ∀ g ∈ segs, '-' ∈ trimSpace g → segHi g ≠ maxInt)
    (hmem : yports.length + ((segs.map segValues).flatten).length ≤ limit) :
    yankLoop limit segs yports =
      if ∀ g ∈ segs, '-' ∈ trimSpace g then
        .returned (yports ++ (segs.map segValues).flatten)
      else .panicked := by
  induction segs generalizing yports with
  | nil => simp [yankLoop]
  | cons g rest ih =>
    by_cases hd : '-' ∈ trimSpace g
    · have hval : segValues g = intRange (segLo g) (segHi g) := by simp [segValues, hd]
      simp only [List.map_cons, List.flatten_cons, hval, List.length_append,
        intRange_length_toNat] at hmem
      rw [yankLoop_cons_fit limit g rest yports hd (hhi g (List.mem_cons_self _ _) hd)
        (by omega),
        ih _ (fun x hx => hhi x (List.mem_cons_of_mem _ hx))
          (by simp only [List.length_append, intRange_length_toNat]; omega)]
      simp only [List.mem_cons, forall_eq_or_imp, hd, true_and, List.map_cons,
        List.flatten_cons, hval, List.append_assoc]
    · rw [yankLoop_cons_nodash limit g rest yports hd]
      have hnot : ¬ ∀ x ∈ g :: rest, '-' ∈ trimSpace x :=
        fun hall => hd (hall g (List.mem_cons_self _ _))
      rw [if_neg hnot]

theorem yankPorts_no_bracket (cap : Nat) (ports : String) (h : '[' ∉ ports.data) :
    yankPorts cap ports = .panicked := by
  have hn := (split_get?_one_none '[' ports.data).mpr h
  simp only [yankPorts, hn]

theorem yankPorts_bracket (cap : Nat) (ports : String) (h : '[' ∈ ports.data) :
    yankPorts cap ports = yankLoop (sliceLimit cap) (segmentsOf ports) [] := by
  have hs := split_get?_one_some '[' ports.data h
  simp only [yankPorts, hs, segmentsOf]

/-- A first segment whose upper bound is read as the largest `int` ends the
program, whatever the memory. -/
theorem yankPorts_first_never (cap : Nat) (ports : String) (g : List Char)
    (rest : List (List Char)) (hb : '[' ∈ ports.data) (hs : segmentsOf ports = g :: rest)
    (hd : '-' ∈ trimSpace g) (hm : segHi g = maxInt) :
    yankPorts cap ports = .outOfMemory := by
  rw [yankPorts_bracket cap ports hb, hs, yankLoop_cons_never _ g rest [] hd hm]

/-- A first segment with more values than the largest slice ends the program,
whatever the memory. -/
theorem yankPorts_first_short (cap : Nat) (ports : String) (g : List Char)
    (rest : List (List Char)) (hb : '[' ∈ ports.data) (hs : segmentsOf ports = g :: rest)
    (hd : '-' ∈ trimSpace g) (hm : segHi g ≠ maxInt)
    (hlen : maxAlloc / (intSize / 8) < (segHi g + 1 - segLo g).toNat) :
    yankPorts cap ports = .outOfMemory := by
  rw [yankPorts_bracket cap ports hb, hs]
  exact yankLoop_cons_short _ g rest [] hd hm
    (lt_of_le_of_lt (le_trans (Nat.sub_le _ _) (sliceLimit_le cap)) hlen)

/-! ## Well-formed port strings: lemmas -/

theorem not_mem_digits (ds : List Char) (hd : ∀ c ∈ ds, isDigit c) (x : Char)
    (hx : ¬ isDigit x) : x ∉ ds :=
  fun h => hx (hd x h)

theorem Segment.trim_text (g : Segment) (h : g.WF) : trimSpace g.text = g.lo ++ '-' :: g.hi := by
  obtain ⟨hpre, hpost, hlo, hhi, hdlo, hdhi, -⟩ := h
  obtain ⟨a, lo', hloeq⟩ := List.exists_cons_of_ne_nil hlo
  rcases List.eq_nil_or_concat g.hi with hnil | ⟨hi', b, hhieq⟩
  · exact absurd hnil hhi
  · have ha : isSpace a = false :=
      digit_not_space a (hdlo a (by rw [hloeq]; exact List.mem_cons_self _ _))
    have hb : isSpace b = false :=
      digit_not_space b (hdhi b (by rw [hhieq]; simp))
    have hcore : g.lo ++ '-' :: g.hi = a :: ((lo' ++ '-' :: hi') ++ [b]) := by
      rw [hloeq, hhieq]; simp
    unfold Segment.text
    rw [hcore]
    exact trimSpace_core g.pre g.post _ a b hpre hpost ha hb

theorem Segment.split_dash (g : Segment) (h : g.WF) :
    split '-' (g.lo ++ '-' :: g.hi) = [g.lo, g.hi] := by
  obtain ⟨-, -, -, -, hdlo, hdhi, -⟩ := h
  have hnd : ¬ isDigit '-' := by decide
  rw [split_append_sep '-' g.lo g.hi (not_mem_digits g.lo hdlo '-' hnd),
    split_of_not_mem '-' g.hi (not_mem_digits g.hi hdhi '-' hnd)]

theorem Segment.dash_mem (g : Segment) (h : g.WF) : '-' ∈ trimSpace g.text := by
  rw [g.trim_text h]; simp

theorem Segment.segHi_text (g : Segment) (h : g.WF) (hv : (decVal g.hi : Int) < maxInt) :
    segHi g.text = decVal g.hi := by
  rw [maxInt_eq] at hv
  unfold segHi
  rw [g.trim_text h, g.split_dash h]
  simp only [List.getD_cons_succ, List.getD_cons_zero]
  rw [atoi_digits g.hi h.2.2.2.1 h.2.2.2.2.2.1 (by norm_num; omega)]

theorem Segment.segLo_text (g : Segment) (h : g.WF) (hv : (decVal g.hi : Int) < maxInt) :
    segLo g.text = decVal g.lo := by
  rw [maxInt_eq] at hv
  have hle := h.2.2.2.2.2.2
  unfold segLo
  rw [g.trim_text h, g.split_dash h]
  simp only [List.getD_cons_zero]
  rw [atoi_digits g.lo h.2.2.1 h.2.2.2.2.1 (by norm_num; omega)]

theorem Segment.not_mem_text (g : Segment) (h : g.WF) (x : Char) (hs : isSpace x = false)
    (hd : ¬ isDigit x) (hx : x ≠ '-') : x ∉ g.text := by
  obtain ⟨hpre, hpost, -, -, hdlo, hdhi, -⟩ := h
  unfold Segment.text
  simp only [List.mem_append, List.mem_cons, not_or]
  refine ⟨⟨fun hm => ?_, not_mem_digits g.lo hdlo x hd, hx, not_mem_digits g.hi hdhi x hd⟩,
    fun hm => ?_⟩
  · rw [hpre x hm] at hs; exact Bool.noConfusion hs
  · rw [hpost x hm] at hs; exact Bool.noConfusion hs

theorem joinSegs_not_mem (xs : List (List Char)) (x : Char) (hx : x ≠ ',')
    (h : ∀ y ∈ xs, x ∉ y) : x ∉ joinSegs xs := by
  induction xs with
  | nil => simp [joinSegs]
  | cons a rest ih =>
    cases rest with
    | nil => simpa [joinSegs] using h a (List.mem_cons_self _ _)
    | cons b rest =>
      simp only [joinSegs, List.mem_append, List.mem_cons, not_or]
      exact ⟨h a (List.mem_cons_self _ _), hx,
        ih (fun y hy => h y (List.mem_cons_of_mem _ hy))⟩

theorem split_joinSegs (xs : List (List Char)) (hne : xs ≠ []) (h : ∀ y ∈ xs, ',' ∉ y) :
    split ',' (joinSegs xs) = xs := by
  induction xs with
  | nil => exact absurd rfl hne
  | cons a rest ih =>
    cases rest with
    | nil =>
      simp only [joinSegs]
      exact split_of_not_mem ',' a (h a (List.mem_cons_self _ _))
    | cons b rest =>
      simp only [joinSegs]
      rw [split_append_sep ',' a _ (h a (List.mem_cons_self _ _)),
        ih (by simp) (fun y hy => h y (List.mem_cons_of_mem _ hy))]

theorem segmentsOf_portString (pfx : List Char) (segs : List Segment) (hpfx : '[' ∉ pfx)
    (hne : segs ≠ []) (hwf : ∀ g ∈ segs, g.WF) :
    '[' ∈ (portString pfx segs).data ∧
      segmentsOf (portString pfx segs) = segs.map Segment.text := by
  have hno : ∀ x : Char, isSpace x = false → ¬ isDigit x → x ≠ '-' →
      ∀ y ∈ segs.map Segment.text, x ∉ y := by
    intro x hs hd hx y hy
    obtain ⟨g, hg, rfl⟩ := List.mem_map.mp hy
    exact g.not_mem_text (hwf g hg) x hs hd hx
  have hopen : '[' ∉ joinSegs (segs.map Segment.text) :=
    joinSegs_not_mem _ '[' (by decide) (hno '[' (by decide) (by decide) (by decide))
  have hclose : ']' ∉ joinSegs (segs.map Segment.text) :=
    joinSegs_not_mem _ ']' (by decide) (hno ']' (by decide) (by decide) (by decide))
  have hopen2 : '[' ∉ joinSegs (segs.map Segment.text) ++ [']'] := by
    simp only [List.mem_append, List.mem_singleton, not_or]
    exact ⟨hopen, by decide⟩
  refine ⟨by simp [portString], ?_⟩
  unfold segmentsOf portString
  simp only
  rw [split_append_sep '[' pfx _ hpfx, split_of_not_mem '[' _ hopen2]
  simp only [List.getD_cons_succ, List.getD_cons_zero]
  rw [split_append_sep ']' _ [] hclose]
  simp only [List.getD_cons_zero]
  exact split_joinSegs _ (by simpa using hne)
    (hno ',' (by decide) (by decide) (by decide))

theorem Segment.values_text (g : Segment) (h : g.WF) (hv : (decVal g.hi : Int) < maxInt) :
    segValues g.text = g.ports := by
  simp only [segValues, g.dash_mem h, if_true, g.segLo_text h hv, g.segHi_text h hv,
    Segment.ports]

theorem values_map_text (segs : List Segment)
    (hwf : ∀ g ∈ segs, g.WF ∧ (decVal g.hi : Int) < maxInt) :
    (segs.map Segment.text).map segValues = segs.map Segment.ports := by
  rw [List.map_map]
  exact List.map_congr_left (fun g hg => g.values_text (hwf g hg).1 (hwf g hg).2)

theorem ports_length_sum (segs : List Segment) (hwf : ∀ g ∈ segs, g.WF) :
    (((segs.map Segment.ports).flatten.length : Nat) : Int) =
      (segs.map (fun g => (decVal g.hi : Int) - (decVal g.lo : Int) + 1)).sum := by
  induction segs with
  | nil => simp
  | cons g rest ih =>
    have hle := (hwf g (List.mem_cons_self _ _)).2.2.2.2.2.2
    simp only [List.map_cons, List.flatten_cons, List.length_append, Nat.cast_add, List.sum_cons]
    rw [ih (fun x hx => hwf x (List.mem_cons_of_mem _ hx)), Segment.ports,
      intRange_length _ _ (by exact_mod_cast hle)]

/-! ## `yankPorts`: statements -/

/-- C1 fails: `[0-9223372036854775807]` and
`[9223372036854775806-9223372036854775807]` are well-formed port strings, yet
with the largest `int` as upper bound the test of the inner loop never fails
and the program ends out of memory instead of returning a list, whatever the
memory; and `[0-9223372036854775806]` is well formed with a smaller upper bound,
yet stands for more values than any slice holds. -/
theorem yankPorts_max_bound_no_list :
    (segMax.WF ∧ portString [] [segMax] = "[0-9223372036854775807]" ∧
        ¬ ∃ cap l, yankPorts cap (portString [] [segMax]) = .returned l) ∧
      (segTop.WF ∧
        portString [] [segTop] = "[9223372036854775806-9223372036854775807]" ∧
        ¬ ∃ cap l, yankPorts cap (portString [] [segTop]) = .returned l) ∧
      (segWide.WF ∧ (decVal segWide.hi : Int) < maxInt ∧
        portString [] [segWide] = "[0-9223372036854775806]" ∧
        ¬ ∃ cap l, yankPorts cap (portString [] [segWide]) = .returned l) := by
  refine ⟨⟨by decide, by decide, ?_⟩, ⟨by decide, by decide, ?_⟩,
    ⟨by decide, by decide, by decide, ?_⟩⟩
  · rintro ⟨cap, l, h⟩
    rw [yankPorts_first_never cap _ segMax.text [] (by decide) (by decide) (by decide)
      (by decide)] at h
    exact Run.noConfusion h
  · rintro ⟨cap, l, h⟩
    rw [yankPorts_first_never cap _ segTop.text [] (by decide) (by decide) (by decide)
      (by decide)] at h
    exact Run.noConfusion h
  · rintro ⟨cap, l, h⟩
    rw [yankPorts_first_short cap _ segWide.text [] (by decide) (by decide) (by decide)
      (by decide) (by decide)] at h
    exact Run.noConfusion h

/-- C1 amended: for a prefix without `[` and one or more well-formed segments
whose upper bounds are below the largest `int` and whose values, the sum of
`hi - lo + 1`, fit the length the result slice can reach in the memory of the
machine, `yankPorts` returns the concatenation in segment order of the lists
`[lo, ..., hi]`; its length is that sum, and a segment with `lo = hi` stands for
that one value. -/
theorem yankPorts_wellformed (cap : Nat) (pfx : List Char) (segs : List Segment)
    (hpfx : '[' ∉ pfx) (hne : segs ≠ [])
    (hwf : ∀ g ∈ segs, g.WF ∧ (decVal g.hi : Int) < maxInt)
    (hmem : (segs.map (fun g => (decVal g.hi : Int) - (decVal g.lo : Int) + 1)).sum ≤
      (sliceLimit cap : Int)) :
    yankPorts cap (portString pfx segs) = .returned (segs.map Segment.ports).flatten ∧
      (((segs.map Segment.ports).flatten.length : Nat) : Int) =
        (segs.map (fun g => (decVal g.hi : Int) - (decVal g.lo : Int) + 1)).sum ∧
      ∀ g ∈ segs, decVal g.lo = decVal g.hi → g.ports = [(decVal g.lo : Int)] := by
  have hwf1 : ∀ g ∈ segs, g.WF := fun g hg => (hwf g hg).1
  obtain ⟨hb, hsegs⟩ := segmentsOf_portString pfx segs hpfx hne hwf1
  have hlen := ports_length_sum segs hwf1
  refine ⟨?_, hlen, ?_⟩
  · have hhi : ∀ x ∈ segs.map Segment.text, '-' ∈ trimSpace x → segHi x ≠ maxInt := by
      intro x hx _
      obtain ⟨g, hg, rfl⟩ := List.mem_map.mp hx
      rw [g.segHi_text (hwf g hg).1 (hwf g hg).2]
      exact ne_of_lt (hwf g hg).2
    have hall : ∀ x ∈ segs.map Segment.text, '-' ∈ trimSpace x := by
      intro x hx
      obtain ⟨g, hg, rfl⟩ := List.mem_map.mp hx
      exact g.dash_mem (hwf g hg).1
    have hfit : ([] : List Int).length +
        (((segs.map Segment.text).map segValues).flatten).length ≤ sliceLimit cap := by
      rw [values_map_text segs hwf, List.length_nil, Nat.zero_add]
      exact_mod_cast hlen ▸ hmem
    rw [yankPorts_bracket cap _ hb, hsegs, yankLoop_fit _ _ [] hhi hfit, if_pos hall,
      values_map_text segs hwf]
    simp
  · intro g _ heq
    unfold Segment.ports
    rw [heq, intRange_step _ _ (le_refl _), intRange_empty _ _ (by omega)]

/-- C1 amended, at `[1-1, 5-6]` on a machine with room for 1000 values. -/
theorem yankPorts_wellformed_witness :
    yankPorts 1000 "[1-1, 5-6]" = .returned [1, 5, 6] :=
  (yankPorts_wellformed 1000 [] segsDemo (by decide) (List.cons_ne_nil _ _) (by decide)
    (by decide)).1

/-- C2 fails: a port string without closing bracket and one with bounds that
are no numbers each yield a list. -/
theorem yankPorts_malformed_returns :
    yankPorts 4 "[1-3" = .returned [1, 2, 3] ∧ yankPorts 4 "[a-b]" = .returned [0] := by
  decide

/-- C2 amended: a port string without opening bracket yields no list: whatever
the memory, `yankPorts` panics with an index out of range. A missing closing
bracket is not rejected: the text after `[` is read to its end, as if the
bracket closed it there. -/
theorem yankPorts_missing_bracket (cap : Nat) :
    (∀ ports : String, '[' ∉ ports.data → yankPorts cap ports = .panicked) ∧
      ∀ pfx body : List Char, '[' ∉ pfx → '[' ∉ body → ']' ∉ body →
        yankPorts cap (String.mk (pfx ++ '[' :: body)) =
          yankPorts cap (String.mk (pfx ++ '[' :: (body ++ [']']))) := by
  refine ⟨fun ports h => yankPorts_no_bracket cap ports h, ?_⟩
  intro pfx body hpfx hopen hclose
  have hopen2 : '[' ∉ body ++ [']'] := by
    simp only [List.mem_append, List.mem_singleton, not_or]
    exact ⟨hopen, by decide⟩
  simp only [yankPorts]
  rw [split_append_sep '[' pfx _ hpfx, split_of_not_mem '[' _ hopen,
    split_append_sep '[' pfx _ hpfx, split_of_not_mem '[' _ hopen2]
  simp only [List.get?_cons_succ, List.get?_cons_zero]
  rw [split_of_not_mem ']' _ hclose, split_append_sep ']' _ [] hclose]
  simp only [List.getD_cons_zero]

/-- C2 amended, at `8000-8001]` and at `[1-3`. -/
theorem yankPorts_missing_bracket_witness :
    yankPorts 4 "8000-8001]" = .panicked ∧ yankPorts 4 "[1-3" = yankPorts 4 "[1-3]" :=
  ⟨(yankPorts_missing_bracket 4).1 "8000-8001]" (by decide),
   (yankPorts_missing_bracket 4).2 [] "1-3".data (by decide) (by decide) (by decide)⟩

/-- C10 fails: in `[0-9223372036854775807,x]` the segment `x` has no `-`, yet
on no machine does `yankPorts` panic; `[7-99999999999999999999]` has its `[`
and a `-` in its only segment, yet on no machine is a list returned; and the
bound `99999999999999999999`, which fails to parse, is read as the largest
`int`, not as 0. -/
theorem yankPorts_outcome_misses_overflow :
    (['x'] ∈ segmentsOf "[0-9223372036854775807,x]" ∧ '-' ∉ trimSpace ['x'] ∧
        ¬ ∃ cap, yankPorts cap "[0-9223372036854775807,x]" = .panicked) ∧
      ('[' ∈ "[7-99999999999999999999]".data ∧
        (∀ g ∈ segmentsOf "[7-99999999999999999999]", '-' ∈ trimSpace g) ∧
        ¬ ∃ cap l, yankPorts cap "[7-99999999999999999999]" = .returned l) ∧
      atoi "99999999999999999999".data = (maxInt, .outOfRange) := by
  refine ⟨⟨by decide, by decide, ?_⟩, ⟨by decide, by decide, ?_⟩, by decide⟩
  · rintro ⟨cap, h⟩
    rw [yankPorts_first_never cap _ "0-9223372036854775807".data [['x']] (by decide)
      (by decide) (by decide) (by decide)] at h
    exact Run.noConfusion h
  · rintro ⟨cap, l, h⟩
    rw [yankPorts_first_never cap _ "7-99999999999999999999".data [] (by decide)
      (by decide) (by decide) (by decide)] at h
    exact Run.noConfusion h

/-- C10 amended: `yankPorts` panics with an index out of range on every input
without `[`. On an input with `[` in which no segment with a `-` has its upper
bound read as the largest `int` and the values of the segments fit the length
the result slice can reach, it panics exactly when some segment has no `-` after
trimming, and otherwise returns the concatenation of the lists `[lo, ..., hi]`
read from the segments; so it always ends in one of the two. Such a list is
empty when `hi < lo`. A bound with a syntax error is read as 0; a bound of
digits is read as its value when that fits an `int`, and as the largest `int`
otherwise. -/
theorem yankPorts_outcome (cap : Nat) (ports : String) :
    ('[' ∉ ports.data → yankPorts cap ports = .panicked) ∧
      ('[' ∈ ports.data →
        (∀ g ∈ segmentsOf ports, '-' ∈ trimSpace g → segHi g ≠ maxInt) →
        (((segmentsOf ports).map segValues).flatten).length ≤ sliceLimit cap →
        (yankPorts cap ports = .panicked ↔ ∃ g ∈ segmentsOf ports, '-' ∉ trimSpace g) ∧
          ((∀ g ∈ segmentsOf ports, '-' ∈ trimSpace g) →
            yankPorts cap ports = .returned ((segmentsOf ports).map segValues).flatten) ∧
          (yankPorts cap ports = .panicked ∨ ∃ l, yankPorts cap ports = .returned l)) ∧
      (∀ g : List Char, '-' ∈ trimSpace g → segHi g < segLo g → segValues g = []) ∧
      (∀ s, (atoi s).2 = .invalid → (atoi s).1 = 0) ∧
      (∀ ds, ds ≠ [] → (∀ c ∈ ds, isDigit c) →
        atoi ds = if (decVal ds : Int) ≤ maxInt then ((decVal ds : Int), NumError.ok)
          else (maxInt, NumError.outOfRange)) := by
  refine ⟨yankPorts_no_bracket cap ports, ?_, ?_, atoi_invalid_value, ?_⟩
  · intro hb hhi hmem
    have hrun := yankLoop_fit (sliceLimit cap) (segmentsOf ports) [] hhi
      (by rw [List.length_nil, Nat.zero_add]; exact hmem)
    rw [← yankPorts_bracket cap ports hb] at hrun
    by_cases hall : ∀ g ∈ segmentsOf ports, '-' ∈ trimSpace g
    · rw [if_pos hall, List.nil_append] at hrun
      refine ⟨?_, fun _ => hrun, Or.inr ⟨_, hrun⟩⟩
      rw [hrun]
      constructor
      · intro h; exact Run.noConfusion h
      · rintro ⟨g, hg, hd⟩; exact absurd (hall g hg) hd
    · rw [if_neg hall] at hrun
      refine ⟨?_, fun h => absurd h hall, Or.inl hrun⟩
      rw [hrun]
      simp only [true_iff]
      by_contra hno
      exact hall (fun g hg => by_contra (fun hd => hno ⟨g, hg, hd⟩))
  · intro g hd hlt
    simp only [segValues, hd, if_true]
    exact intRange_empty _ _ hlt
  · intro ds hne hd
    rw [maxInt_eq]
    by_cases hv : (decVal ds : Int) ≤ 9223372036854775807
    · rw [if_pos hv]
      exact atoi_digits ds hne hd (by norm_num; omega)
    · rw [if_neg hv, ← maxInt_eq]
      exact atoi_digits_large ds hne hd (by norm_num; omega)

/-- C10 amended, on a machine with room for 1000 values: `abc` and `[]` panic;
`[1-3`, `[a-b]` and `[3-1]` each yield a list; the bound `a` is read as 0 and the
bound `99999999999999999999` as the largest `int`. -/
theorem yankPorts_outcome_witness :
    yankPorts 1000 "abc" = .panicked ∧ yankPorts 1000 "[]" = .panicked ∧
      yankPorts 1000 "[1-3" = .returned [1, 2, 3] ∧
      yankPorts 1000 "[a-b]" = .returned [0] ∧
      yankPorts 1000 "[3-1]" = .returned [] ∧
      (atoi ['a']).1 = 0 ∧
      atoi "99999999999999999999".data = (maxInt, .outOfRange) :=
  ⟨(yankPorts_outcome 1000 "abc").1 (by decide),
   ((yankPorts_outcome 1000 "[]").2.1 (by decide) (by decide) (by decide)).1.mpr
     ⟨[], by decide, by decide⟩,
   ((yankPorts_outcome 1000 "[1-3").2.1 (by decide) (by decide) (by decide)).2.1 (by decide),
   ((yankPorts_outcome 1000 "[a-b]").2.1 (by decide) (by decide) (by decide)).2.1 (by decide),
   ((yankPorts_outcome 1000 "[3-1]").2.1 (by decide) (by decide) (by decide)).2.1 (by decide),
   (yankPorts_outcome 1000 "").2.2.2.1 ['a'] (by decide),
   ((yankPorts_outcome 1000 "").2.2.2.2 "99999999999999999999".data (by decide)
     (by decide)).trans (if_neg (by decide))⟩

/-! ## The reconciler: lemmas -/

theorem taskStep_eq (env : Env) (sj : StateJSON) (log : List RegistryCall) (t : Task) :
    taskStep env sj log t =
      log ++ (if eligible env sj t then
        [RegistryCall.registerTask t (env.getFollowerById sj t.FollowerId).1] else []) := by
  unfold taskStep eligible
  by_cases h1 : (env.getFollowerById sj t.FollowerId).2 = none <;>
    by_cases h2 : t.State = "TASK_RUNNING" <;> simp [h1, h2]

theorem tasks_foldl_eq (env : Env) (sj : StateJSON) (ts : List Task) (log : List RegistryCall) :
    ts.foldl (taskStep env sj) log =
      log ++ (ts.filter (eligible env sj)).map
        (fun t => RegistryCall.registerTask t (env.getFollowerById sj t.FollowerId).1) := by
  induction ts generalizing log with
  | nil => simp
  | cons t ts ih =>
    rw [List.foldl_cons, ih, taskStep_eq]
    by_cases h : eligible env sj t = true <;> simp [List.filter_cons, h]

theorem frameworks_foldl_eq (env : Env) (sj : StateJSON) (fws : List Framework)
    (log : List RegistryCall) :
    fws.foldl (frameworkStep env sj) log =
      log ++ (((fws.map Framework.Tasks).flatten).filter (eligible env sj)).map
        (fun t => RegistryCall.registerTask t (env.getFollowerById sj t.FollowerId).1) := by
  induction fws generalizing log with
  | nil => simp
  | cons fw fws ih =>
    rw [List.foldl_cons, ih]
    unfold frameworkStep
    rw [tasks_foldl_eq]
    simp [List.filter_append, List.append_assoc]

/-- The whole log of one `parseState` call. -/
theorem parseState_eq (env : Env) (sj : StateJSON) :
    parseState env sj =
      RegistryCall.registerHosts sj ::
        (((allTasks sj).filter (eligible env sj)).map
          (fun t => RegistryCall.registerTask t (env.getFollowerById sj t.FollowerId).1) ++
        [RegistryCall.deregister]) := by
  simp only [parseState, allTasks]
  rw [frameworks_foldl_eq]
  simp

theorem registrations_map (f : Task → String) (ts : List Task) :
    registrations (ts.map (fun t => RegistryCall.registerTask t (f t))) =
      ts.map (fun t => (t, f t)) := by
  induction ts with
  | nil => rfl
  | cons t ts ih =>
    simp only [registrations, List.map_cons, List.filterMap_cons] at ih ⊢
    rw [ih]

theorem parseState_ne_nil (env : Env) (sj : StateJSON) : parseState env sj ≠ [] := by
  rw [parseState_eq]; simp

/-! ## The fetcher: lemmas -/

theorem loadFromMaster_fatal (env : Env) (ip port : String) (h : fetchFails env ip port) :
    loadFromMaster env ip port = .fatal := by
  obtain ⟨hreq, hrt⟩ := h
  unfold loadFromMaster
  simp only [hreq]
  rcases hrt with h | h | ⟨b, h, hb⟩
  · simp [h]
  · simp [h]
  · simp [h, hb]

theorem loadState_fetches_le (env : Env) : (loadState env).2.length ≤ 2 := by
  unfold loadState
  by_cases hip : env.getLeader.1 = ""
  · simp [hip]
  · simp only [hip, if_false]
    cases loadFromMaster env env.getLeader.1 env.getLeader.2 with
    | fatal => simp
    | panicked => simp
    | doc sj =>
      by_cases hr : env.leaderIP sj.Leader = env.getLeader.1
      · simp [hr]
      · simp only [ne_eq, hr, not_false_eq_true, if_true]
        cases loadFromMaster env (env.leaderIP sj.Leader) env.getLeader.2 <;> simp

theorem loadState_same (env : Env) (dA : StateJSON) (hip : env.getLeader.1 ≠ "")
    (hA : loadFromMaster env env.getLeader.1 env.getLeader.2 = .doc dA)
    (hr : env.leaderIP dA.Leader = env.getLeader.1) :
    loadState env = (.returned (dA, none), [(env.getLeader.1, env.getLeader.2)]) := by
  unfold loadState
  simp [hip, hA, hr]

theorem loadState_moved_fetches (env : Env) (dA : StateJSON) (hip : env.getLeader.1 ≠ "")
    (hA : loadFromMaster env env.getLeader.1 env.getLeader.2 = .doc dA)
    (hr : env.leaderIP dA.Leader ≠ env.getLeader.1) :
    (loadState env).2 =
      [(env.getLeader.1, env.getLeader.2), (env.leaderIP dA.Leader, env.getLeader.2)] := by
  unfold loadState
  simp only [hip, if_false, hA, ne_eq, hr, not_false_eq_true, if_true]
  cases loadFromMaster env (env.leaderIP dA.Leader) env.getLeader.2 <;> rfl

theorem loadState_moved (env : Env) (dA dB : StateJSON) (hip : env.getLeader.1 ≠ "")
    (hA : loadFromMaster env env.getLeader.1 env.getLeader.2 = .doc dA)
    (hr : env.leaderIP dA.Leader ≠ env.getLeader.1)
    (hB : loadFromMaster env (env.leaderIP dA.Leader) env.getLeader.2 = .doc dB) :
    (loadState env).1 = .returned (dB, none) := by
  unfold loadState
  simp [hip, hA, hr, hB]

/-! ## The reconciler: statements -/

/-- C3: the `registerTask` calls of one `parseState` run are, in framework order
then task order, exactly the tasks whose state is `TASK_RUNNING` and whose host
`GetFollowerById` resolves without error, each paired with that host; every
registration in the log is of such a task, and the run still ends with the
deregistration when tasks were skipped. -/
theorem parseState_registers_eligible (env : Env) (sj : StateJSON) :
    registrations (parseState env sj) =
        ((allTasks sj).filter (eligible env sj)).map
          (fun t => (t, (env.getFollowerById sj t.FollowerId).1)) ∧
      (∀ t h, RegistryCall.registerTask t h ∈ parseState env sj →
        t ∈ allTasks sj ∧ t.State = "TASK_RUNNING" ∧
          (env.getFollowerById sj t.FollowerId).2 = none ∧
          h = (env.getFollowerById sj t.FollowerId).1) ∧
      (parseState env sj).getLast? = some RegistryCall.deregister := by
  refine ⟨?_, ?_, ?_⟩
  · rw [parseState_eq]
    simp only [registrations, List.filterMap_cons, List.filterMap_append, List.filterMap_nil,
      List.append_nil]
    exact registrations_map (fun t => (env.getFollowerById sj t.FollowerId).1) _
  · intro t h hmem
    rw [parseState_eq] at hmem
    simp only [List.mem_cons, List.mem_append, List.mem_map, List.mem_filter, List.mem_singleton,
      List.not_mem_nil, or_false] at hmem
    rcases hmem with hmem | ⟨u, ⟨hu, he⟩, heq⟩ | hmem
    · exact absurd hmem (by simp)
    · simp only [RegistryCall.registerTask.injEq] at heq
      obtain ⟨rfl, rfl⟩ := heq
      simp only [eligible, Bool.and_eq_true, decide_eq_true_eq] at he
      exact ⟨hu, he.1, he.2, rfl⟩
    · exact absurd hmem (by simp)
  · rw [parseState_eq]
    simp [List.getLast?_cons, List.getLast?_append]

/-- C3 at a document with a running, a finished, an unresolvable and another
running task: the two resolvable running tasks are registered, in order, and
the finished one never is. -/
theorem parseState_registers_eligible_witness :
    registrations (parseState envSteady docA) = [(taskRun, "10.0.1.1"), (taskNext, "10.0.1.2")] ∧
      taskDone ∈ allTasks docA ∧
      ∀ h, RegistryCall.registerTask taskDone h ∉ parseState envSteady docA :=
  ⟨(parseState_registers_eligible envSteady docA).1.trans (by decide), by decide,
    fun h hm =>
      absurd ((parseState_registers_eligible envSteady docA).2.1 taskDone h hm).2.1
        (by decide)⟩

/-- C4: in the log of one `parseState` run `Registry.Deregister` is the last
call and occurs nowhere before it, so it occurs exactly once and every
`registerTask` call precedes it; also when the document has no frameworks. -/
theorem parseState_deregister_last (env : Env) (sj : StateJSON) :
    ∃ pre, parseState env sj = pre ++ [RegistryCall.deregister] ∧
      RegistryCall.deregister ∉ pre ∧
      (parseState env sj).count RegistryCall.deregister = 1 := by
  have hnot : RegistryCall.deregister ∉
      RegistryCall.registerHosts sj ::
        ((allTasks sj).filter (eligible env sj)).map
          (fun t => RegistryCall.registerTask t (env.getFollowerById sj t.FollowerId).1) := by
    simp
  refine ⟨_, ?_, hnot, ?_⟩
  · rw [parseState_eq]; rfl
  · rw [parseState_eq, ← List.cons_append, List.count_append,
      List.count_eq_zero_of_not_mem hnot]
    simp

/-! ## The fetcher: statements -/

/-- C5: `loadState` makes at most two fetches. When the leader is known and the
document fetched from it resolves to the same ip, that one fetch is the only
one and its document is returned; when it resolves to another ip, exactly one
more fetch is made, against that ip, and whatever document it yields is
returned, whatever leader that document names. -/
theorem loadState_single_hop (env : Env) :
    (loadState env).2.length ≤ 2 ∧
      ∀ dA, env.getLeader.1 ≠ "" →
        loadFromMaster env env.getLeader.1 env.getLeader.2 = .doc dA →
        (env.leaderIP dA.Leader = env.getLeader.1 →
          loadState env = (.returned (dA, none), [(env.getLeader.1, env.getLeader.2)])) ∧
        (env.leaderIP dA.Leader ≠ env.getLeader.1 →
          (loadState env).2 =
              [(env.getLeader.1, env.getLeader.2), (env.leaderIP dA.Leader, env.getLeader.2)] ∧
            ∀ dB, loadFromMaster env (env.leaderIP dA.Leader) env.getLeader.2 = .doc dB →
              (loadState env).1 = .returned (dB, none)) :=
  ⟨loadState_fetches_le env, fun dA hip hA =>
    ⟨fun hr => loadState_same env dA hip hA hr,
     fun hr => ⟨loadState_moved_fetches env dA hip hA hr,
       fun dB hB => loadState_moved env dA dB hip hA hr hB⟩⟩⟩

/-- C5 at a leader that reports another ip: two fetches, second document returned. -/
theorem loadState_single_hop_witness :
    (loadState envMoved).2 = [("10.0.0.1", "5050"), ("10.0.0.2", "5050")] ∧
      (loadState envMoved).1 = .returned (docA, none) :=
  have h := (loadState_single_hop envMoved).2 docMoved (by decide) (by decide)
  ⟨(h.2 (by decide)).1, (h.2 (by decide)).2 docA (by decide)⟩

/-- C6: after `loadState` has returned `(sj, err)`, `Refresh` runs `parseState`
exactly when `err` is nil and the leader is not empty, and returns nil exactly
then; with a nil `err` and an empty leader it returns `Empty master`, with a
non-nil `err` it returns that error, both times without a registry call; and
`Refresh` is that continuation applied to what `loadState` returned, with no
registry call when the process ended instead. -/
theorem refresh_only_after_fetch (env : Env) (sj : StateJSON) (err : GoError) :
    ((refreshAfter env sj err).2 ≠ [] ↔ (err = none ∧ sj.Leader ≠ "")) ∧
      (err = none ∧ sj.Leader ≠ "" → (refreshAfter env sj err).2 = parseState env sj) ∧
      ((refreshAfter env sj err).1 = none ↔ (err = none ∧ sj.Leader ≠ "")) ∧
      (err = none → sj.Leader = "" → refreshAfter env sj err = (some "Empty master", [])) ∧
      (∀ e, err = some e → refreshAfter env sj err = (some e, [])) ∧
      (∀ fs, loadState env = (.returned (sj, err), fs) →
        Refresh env = ⟨.returned (refreshAfter env sj err).1, fs, (refreshAfter env sj err).2⟩) ∧
      (∀ fs, loadState env = (.exited, fs) → Refresh env = ⟨.exited, fs, []⟩) := by
  refine ⟨?_, ?_, ?_, ?_, ?_, ?_, ?_⟩
  · unfold refreshAfter
    cases err with
    | some e => simp
    | none =>
      by_cases hl : sj.Leader = ""
      · simp [hl]
      · simp [hl, parseState_ne_nil]
  · rintro ⟨rfl, hl⟩
    simp [refreshAfter, hl]
  · unfold refreshAfter
    cases err with
    | some e => simp
    | none =>
      by_cases hl : sj.Leader = ""
      · simp [hl]
      · simp [hl]
  · rintro rfl hl
    simp [refreshAfter, hl]
  · rintro e rfl
    simp [refreshAfter]
  · intro fs h
    simp [Refresh, h]
  · intro fs h
    simp [Refresh, h]

/-- C6 at a leader that answers with a document naming a leader, and at a
document without one. -/
theorem refresh_only_after_fetch_witness :
    Refresh envSteady = ⟨.returned none, [("10.0.0.1", "5050")], parseState envSteady docA⟩ ∧
      refreshAfter envSteady docEmpty none = (some "Empty master", []) ∧
      refreshAfter envSteady docA (some "boom") = (some "boom", []) :=
  have h := refresh_only_after_fetch envSteady docA none
  have h2 := refresh_only_after_fetch envSteady docEmpty none
  have h3 := refresh_only_after_fetch envSteady docA (some "boom")
  ⟨by
    rw [h.2.2.2.2.2.1 [("10.0.0.1", "5050")] (by decide), h.2.1 (by decide),
      h.2.2.1.2 (by decide)],
   h2.2.2.2.1 rfl (by decide), h3.2.2.2.2.1 "boom" rfl⟩

/-- C7: with no leader known `loadState` returns the error `No master in
zookeeper` without any fetch, and `Refresh` returns that error, without any
fetch or registry call. -/
theorem no_leader_no_fetch (env : Env) (h : env.getLeader.1 = "") :
    loadState env = (.returned (StateJSON.zero, some "No master in zookeeper"), []) ∧
      Refresh env = ⟨.returned (some "No master in zookeeper"), [], []⟩ := by
  have hl : loadState env = (.returned (StateJSON.zero, some "No master in zookeeper"), []) := by
    simp [loadState, h]
  exact ⟨hl, by simp [Refresh, hl, refreshAfter]⟩

/-- C7 at a collaborator set without leader. -/
theorem no_leader_no_fetch_witness :
    envNoLeader.getLeader.1 = "" ∧
      loadState envNoLeader = (.returned (StateJSON.zero, some "No master in zookeeper"), []) ∧
      Refresh envNoLeader = ⟨.returned (some "No master in zookeeper"), [], []⟩ :=
  ⟨by decide, no_leader_no_fetch envNoLeader (by decide)⟩

/-- C8 fails: a transport error, a read error and a decode error each end the
process instead of being returned, and a panic during the fetch makes
`loadState` return a nil error. -/
theorem fetch_failure_not_surfaced :
    (loadState envTransport).1 = .exited ∧ (loadState envRead).1 = .exited ∧
      (loadState envDecode).1 = .exited ∧
      (loadState envPanic).1 = .returned (StateJSON.zero, none) := by
  decide

/-- C8 amended: a fetch that fails in the transport, in reading the body or in
decoding ends in `log.Fatal`, and when the first or the corrective fetch of
`loadState` does so the process exits: `loadState` returns nothing. -/
theorem fetch_failure_exits (env : Env) (hip : env.getLeader.1 ≠ "") :
    (∀ ip port, fetchFails env ip port → loadFromMaster env ip port = .fatal) ∧
      (fetchFails env env.getLeader.1 env.getLeader.2 → (loadState env).1 = .exited) ∧
      (∀ dA, loadFromMaster env env.getLeader.1 env.getLeader.2 = .doc dA →
        env.leaderIP dA.Leader ≠ env.getLeader.1 →
        fetchFails env (env.leaderIP dA.Leader) env.getLeader.2 →
        (loadState env).1 = .exited) := by
  refine ⟨fun ip port h => loadFromMaster_fatal env ip port h, ?_, ?_⟩
  · intro h
    have hf := loadFromMaster_fatal env _ _ h
    simp [loadState, hip, hf]
  · intro dA hA hr h
    have hf := loadFromMaster_fatal env _ _ h
    simp [loadState, hip, hA, hr, hf]

/-- C8 amended, at a transport that fails on every url. -/
theorem fetch_failure_exits_witness :
    envTransport.getLeader.1 ≠ "" ∧ fetchFails envTransport "10.0.0.1" "5050" ∧
      (loadState envTransport).1 = .exited :=
  have hf : fetchFails envTransport "10.0.0.1" "5050" := ⟨rfl, Or.inl rfl⟩
  ⟨by decide, hf, (fetch_failure_exits envTransport (by decide)).2.1 hf⟩

/-- C9 fails: the corrective fetch keeps the port first contacted although the
leader string names another, and a leader that differs from the contacted host
in its port alone triggers no corrective fetch. -/
theorem corrective_fetch_keeps_port :
    ((loadState envMoved).2 = [("10.0.0.1", "5050"), ("10.0.0.2", "5050")] ∧
        resolveLeader docMoved.Leader = ("10.0.0.2", "6060")) ∧
      ((loadState envPort).2 = [("10.0.0.1", "5050")] ∧
        resolveLeader docPort.Leader = ("10.0.0.1", "6060") ∧
        resolveLeader docPort.Leader ≠ envPort.getLeader) := by
  decide

/-- C9 amended: once the first fetch has returned a document, a corrective fetch
is made exactly when `leaderIP` of its leader differs from the contacted ip,
and it goes to that ip with the port first contacted. -/
theorem corrective_fetch_target (env : Env) (dA : StateJSON) (hip : env.getLeader.1 ≠ "")
    (hA : loadFromMaster env env.getLeader.1 env.getLeader.2 = .doc dA) :
    ((loadState env).2.length = 2 ↔ env.leaderIP dA.Leader ≠ env.getLeader.1) ∧
      (env.leaderIP dA.Leader ≠ env.getLeader.1 →
        (loadState env).2.get? 1 = some (env.leaderIP dA.Leader, env.getLeader.2)) ∧
      (env.leaderIP dA.Leader = env.getLeader.1 →
        (loadState env).2 = [(env.getLeader.1, env.getLeader.2)]) := by
  have hsame := loadState_same env dA hip hA
  have hmoved := loadState_moved_fetches env dA hip hA
  refine ⟨?_, ?_, ?_⟩
  · by_cases hr : env.leaderIP dA.Leader = env.getLeader.1
    · simp [hsame hr, hr]
    · simp [hmoved hr, hr]
  · intro hr
    simp [hmoved hr]
  · intro hr
    simp [hsame hr]

/-- C9 amended, at a leader that reports another ip and another port. -/
theorem corrective_fetch_target_witness :
    envMoved.getLeader.1 ≠ "" ∧
      (loadState envMoved).2.get? 1 = some ("10.0.0.2", "5050") :=
  ⟨by decide, (corrective_fetch_target envMoved docMoved (by decide) (by decide)).2.1 (by decide)⟩

end Mesos

